/-
Verification of the objective-function composition layer of bumps
(`bumps/fitproblem.py`): `BaseFitProblem` cost evaluation (`nllf`, `valid`,
`setp`), `MultiFitProblem` composition (construction, `residuals`,
`model_nllf`, degrees of freedom), and the `Result` post-fit analysis
(`mcmc`, `resample`).

The embedding is shallow: Python floats are modelled by the extended type
`EF` (finite rationals plus `+inf`, `-inf`, `NaN` with IEEE addition and
comparison semantics); mutation of parameter values becomes explicit state
passing over a `List ℚ` of varying-parameter values; calls into the
external `Fitness` model are abstract functions that may fail
(`Except Unit`), and the calls actually issued are collected into an event
trace so that "the model is not evaluated" is a provable statement.
-/
import Mathlib

set_option autoImplicit false

namespace Bumps

/-- Extended floating-point value: a finite rational, `+inf`, `-inf` or
`NaN`.  Models the Python/numpy float values flowing through
`BaseFitProblem.nllf` (`numpy.inf`, `isnan`). -/
inductive EF where
  | fin : ℚ → EF
  | pinf : EF
  | ninf : EF
  | nan : EF
deriving DecidableEq, Repr

/-- IEEE addition: `NaN` is absorbing, `+inf + -inf = NaN`. -/
def EF.add : EF → EF → EF
  | .nan, _ => .nan
  | _, .nan => .nan
  | .pinf, .ninf => .nan
  | .ninf, .pinf => .nan
  | .pinf, _ => .pinf
  | _, .pinf => .pinf
  | .ninf, _ => .ninf
  | _, .ninf => .ninf
  | .fin a, .fin b => .fin (a + b)

/-- IEEE `<=` as a Boolean: every comparison with `NaN` is false. -/
def EF.le : EF → EF → Bool
  | .nan, _ => false
  | _, .nan => false
  | .ninf, _ => true
  | _, .pinf => true
  | .pinf, _ => false
  | .fin _, .ninf => false
  | .fin a, .fin b => decide (a ≤ b)

/-- Python `numpy.isnan`. -/
def EF.isnan : EF → Bool
  | .nan => true
  | _ => false

/-- Events observable by the `Fitness` model during an evaluation:
`setpCall` is `BaseFitProblem.setp` writing parameter values, `updateCall`
is the `fitness.update()` issued by `model_update`, `modelNllfCall` is the
`fitness.nllf()` issued by `model_nllf`. -/
inductive Ev where
  | setpCall
  | updateCall
  | modelNllfCall
deriving DecidableEq, Repr

/-- Embeds the `BaseFitProblem.setp` value assignment: `for v, p in
zip(pvec, self._parameters): p.value = v`.  The state is the list of
current values of the varying parameters, in `_parameters` order; `zip`
stops at the shorter of the two lists, so a short `pvec` overwrites only a
prefix and extra trailing components are dropped. -/
def setp : List ℚ → List ℚ → List ℚ
  | st, [] => st
  | [], _ => []
  | _ :: st, v :: vs => v :: setp st vs

/-- The `BaseFitProblem` data needed by `nllf`.  `nvary` is
`len(self._parameters)`; `inBounds i v` is `v in self._parameters[i].bounds`;
`parameterNllf`, `constraintsNllf` and `modelNllf` are
`self.parameter_nllf()`, `self.constraints_nllf()` and `self.model_nllf()`
as functions of the varying-parameter values, each allowed to raise
(`Except.error`). -/
structure BaseFitProblem where
  nvary : ℕ
  inBounds : ℕ → ℚ → Bool
  parameterNllf : List ℚ → Except Unit EF
  constraintsNllf : List ℚ → Except Unit EF
  modelNllf : List ℚ → Except Unit EF
  soft_limit : EF
  penalty_nllf : EF

/-- Embeds `BaseFitProblem.valid`: `all(v in p.bounds for p, v in
zip(self._parameters, pvec))`. -/
def BaseFitProblem.valid (P : BaseFitProblem) (pvec : List ℚ) : Bool :=
  (List.zip (List.range P.nvary) pvec).all fun iv => P.inBounds iv.1 iv.2

/-- The `try:`-block of `BaseFitProblem.nllf` evaluated at state `st`:
compute `pparameter`, `pconstraint`; evaluate the model only when
`pparameter + pconstraint <= soft_limit`, else substitute `penalty_nllf`;
any exception yields `inf`; a `NaN` cost yields `inf`.  Returns the cost
together with the trace of model calls issued. -/
def BaseFitProblem.nllfBody (P : BaseFitProblem) (st : List ℚ) : EF × List Ev :=
  match P.parameterNllf st with
  | .error _ => (EF.pinf, [])
  | .ok pparameter =>
    match P.constraintsNllf st with
    | .error _ => (EF.pinf, [])
    | .ok pconstraint =>
      if EF.le (EF.add pparameter pconstraint) P.soft_limit then
        match P.modelNllf st with
        | .error _ => (EF.pinf, [Ev.modelNllfCall])
        | .ok pmodel =>
          let cost := EF.add (EF.add pparameter pconstraint) pmodel
          ((if cost.isnan then EF.pinf else cost), [Ev.modelNllfCall])
      else
        let cost := EF.add (EF.add pparameter pconstraint) P.penalty_nllf
        ((if cost.isnan then EF.pinf else cost), [])

/-- Embeds `BaseFitProblem.nllf(pvec=None)`: if a vector is supplied,
return `inf` immediately when it is invalid, otherwise `setp` it (which
also triggers `fitness.update()`) and evaluate the cost.  Returns the
cost, the final parameter state and the event trace. -/
def BaseFitProblem.nllf (P : BaseFitProblem) (st : List ℚ) (pvec : Option (List ℚ)) :
    EF × List ℚ × List Ev :=
  match pvec with
  | some v =>
    if P.valid v then
      let st2 := setp st v
      let r := P.nllfBody st2
      (r.1, st2, [Ev.setpCall, Ev.updateCall] ++ r.2)
    else
      (EF.pinf, st, [])
  | none =>
    let r := P.nllfBody st
    (r.1, st, r.2)

/-- A concrete single-parameter problem used to witness the theorems:
bounds `[0, 1]`, parameter prior nllf `1`, constraints nllf `2`, model
nllf `3`, default `soft_limit = inf`, default `penalty_nllf = 1e6`. -/
def exP : BaseFitProblem where
  nvary := 1
  inBounds := fun _ v => decide (0 ≤ v ∧ v ≤ 1)
  parameterNllf := fun _ => .ok (EF.fin 1)
  constraintsNllf := fun _ => .ok (EF.fin 2)
  modelNllf := fun _ => .ok (EF.fin 3)
  soft_limit := EF.pinf
  penalty_nllf := EF.fin 1000000

/-- Like `exP` but the parameter nllf and the model nllf raise, with soft
limit `0`. -/
def exPbad : BaseFitProblem where
  nvary := 1
  inBounds := fun _ v => decide (0 ≤ v ∧ v ≤ 1)
  parameterNllf := fun _ => .error ()
  constraintsNllf := fun _ => .ok (EF.fin 2)
  modelNllf := fun _ => .error ()
  soft_limit := EF.fin 0
  penalty_nllf := EF.fin 1000000

/-- A parameter as seen by the composition layer: an identity (object
identity in Python, used by `parameter.unique` to deduplicate), whether
its bounds fix it to a point (excluded from `parameter.varying`), and
whether its bounds are `Unbounded` (excluded from `self.bounded`). -/
structure MParam where
  id : ℕ
  isFixed : Bool
  isUnbounded : Bool
deriving DecidableEq, Repr

/-- Modelled from the spec: `parameter.unique` (module `bumps.parameter`,
which is not under `src/`) flattens the discovered parameter structure
into "the deduplicated set of all parameters", keeping the first
occurrence of each parameter identity.  `seen` is the set of identities
already emitted. -/
def uniqueAux : List ℕ → List MParam → List MParam
  | _, [] => []
  | seen, p :: ps =>
    if p.id ∈ seen then uniqueAux seen ps
    else p :: uniqueAux (p.id :: seen) ps

/-- Modelled from the spec: `parameter.unique` on a flattened parameter
list. -/
def unique (ps : List MParam) : List MParam := uniqueAux [] ps

/-- Modelled from the spec: `parameter.varying`, "the subset whose bounds
are not a fixed point". -/
def varying (ps : List MParam) : List MParam := ps.filter fun p => !p.isFixed

/-- The data of one sub-model `Fitness` needed by `MultiFitProblem`:
`numpoints()`, `parameters()` (flattened), `residuals()` and `nllf()`. -/
structure MFitness where
  numpoints : ℕ
  params : List MParam
  residuals : List ℚ
  mnllf : EF
deriving DecidableEq, Repr

/-- The `MultiFitProblem` state after a successful `__init__`: the
sub-models, the `weights` list, the free-variable parameters and the
degrees of freedom computed by `model_reset`. -/
structure MultiFitProblem where
  models : List MFitness
  weights : List ℚ
  freevarsPars : List MParam
  dof : ℤ
deriving DecidableEq, Repr

/-- True when an `Except` computation completed without raising. -/
def exceptOk {ε α : Type} : Except ε α → Bool
  | .ok _ => true
  | .error _ => false

/-- Embeds `MultiFitProblem.__init__`: wraps each model in a sub-problem
(whose `model_reset` raises unless the model has at least one point, the
sub-problems being constructed before the weights are stored), defaults
`weights` to all ones, calls `set_active_model(0)` (an `IndexError` when
`models` is empty) and then `model_reset`, which computes
`dof = model_points() - len(varying parameters)` and raises when it is
not positive.  There is no check relating `len(weights)` to
`len(models)`. -/
def MultiFitProblem.init (models : List MFitness) (weights : Option (List ℚ))
    (freevars : List MParam) : Except String MultiFitProblem :=
  if (models.all fun m => decide (0 < m.numpoints)) = false then
    .error "Need more data points than fitting parameters"
  else match models with
  | [] => .error "list index out of range"
  | _ :: _ =>
    if (models.map MFitness.numpoints).sum
        ≤ (varying (unique ((models.map MFitness.params).flatten ++ freevars))).length then
      .error "Need more data points than fitting parameters"
    else
      .ok ⟨models,
        (match weights with
          | none => models.map fun _ => (1 : ℚ)
          | some w => w),
        freevars,
        ((models.map MFitness.numpoints).sum : ℤ)
          - ((varying (unique ((models.map MFitness.params).flatten ++ freevars))).length : ℤ)⟩

/-- Embeds `MultiFitProblem.residuals`: `numpy.hstack([w * f.residuals()
for w, f in zip(self.weights, self.models)])`. -/
def MultiFitProblem.residuals (mfp : MultiFitProblem) : List ℚ :=
  ((mfp.weights.zip mfp.models).map fun wf => wf.2.residuals.map fun r => wf.1 * r).flatten

/-- Embeds `MultiFitProblem.model_nllf`: `sum(f.model_nllf() for f in
self.models)`, a left fold of float addition starting from `0`. -/
def MultiFitProblem.model_nllf (mfp : MultiFitProblem) : EF :=
  (mfp.models.map MFitness.mnllf).foldl EF.add (EF.fin 0)

/-- A two-point sub-model with one varying parameter (identity 0). -/
def exM1 : MFitness := ⟨2, [⟨0, false, false⟩], [1, 2], EF.fin 1⟩

/-- A two-point sub-model with one varying parameter (identity 1). -/
def exM2 : MFitness := ⟨2, [⟨1, false, false⟩], [3, 4], EF.fin 2⟩

/-- Embeds `Result.mcmc(samples, burnin, walker)`: `burnin` defaults to
`int(samples / 10)`; when `burnin >= samples` a `ValueError` is raised
before the walker is ever consulted; otherwise the walker chain is run
and its first `burnin` rows are discarded. -/
def Result.mcmc (samples : ℕ) (burnin : Option ℕ)
    (walkerRun : ℕ → List (EF × List ℚ)) : Except String (List (EF × List ℚ)) :=
  let b := match burnin with
    | none => samples / 10
    | some b => b
  if b ≥ samples then .error "burnin must be smaller than samples"
  else .ok ((walkerRun samples).drop b)

/-- The outcome of one `resample` iteration's `opt.solve(**kw)` call: a
solution vector, a `KeyboardInterrupt`, or any other exception (the
model's `resynth_data` or the external solver failing). -/
inductive IterOut where
  | ok : List ℚ → IterOut
  | interrupt : IterOut
  | err : IterOut
deriving DecidableEq, Repr

/-- Mutable problem state touched by `resample`: the model's data (an
abstract token — `resynth_data` replaces it, `restore_data` writes back
the original) and the varying-parameter values. -/
structure RState where
  data : ℚ
  params : List ℚ
deriving DecidableEq, Repr

/-- How a `resample` run ends: all iterations completed, a
`KeyboardInterrupt` was caught by the loop's handler, or another
exception escaped. -/
inductive LoopExit where
  | done
  | interrupted
  | errored
deriving DecidableEq, Repr

/-- The environment of `Result.resample`: the stored best `solution`, the
model's original data, the resynthesized data produced at each iteration,
the random vector `randomize()` would draw, the outcome of the solver
call at each iteration, and the validity predicate and cost used by the
in-loop `nllf(x)` call. -/
structure ResampleEnv where
  solution : List ℚ
  origData : ℚ
  synth : ℕ → ℚ
  randomPoint : ℕ → List ℚ
  solveStep : ℕ → IterOut
  validP : List ℚ → Bool
  nllfAt : List ℚ → EF

/-- The `for i in range(samples)` loop of `Result.resample`: each
iteration resynthesizes the data, resets the parameters (to a random
point under `restart`, else to the solution), runs the solver, and on
success records `(nllf(x), x)` — where `nllf(x)` also writes `x` into the
parameters when it is valid.  An interrupt or error stops the loop at the
current state. -/
def resampleLoop (env : ResampleEnv) (restart : Bool) :
    ℕ → ℕ → RState → List (EF × List ℚ) → RState × List (EF × List ℚ) × LoopExit
  | 0, _, st, acc => (st, acc, LoopExit.done)
  | n + 1, i, st, acc =>
    let st1 : RState := ⟨env.synth i,
      if restart then setp st.params (env.randomPoint i) else setp st.params env.solution⟩
    match env.solveStep i with
    | IterOut.interrupt => (st1, acc, LoopExit.interrupted)
    | IterOut.err => (st1, acc, LoopExit.errored)
    | IterOut.ok x =>
      let st2 : RState := if env.validP x then ⟨st1.data, setp st1.params x⟩ else st1
      resampleLoop env restart n (i + 1) st2 (acc ++ [(env.nllfAt x, x)])

/-- Summary of a `Result.resample` call: whether an exception propagated
to the caller, the final problem state, and the points appended to
`self.points`. -/
structure ResampleResult where
  raised : Bool
  finalSt : RState
  points : List (EF × List ℚ)
deriving DecidableEq, Repr

/-- Embeds `Result.resample`: the loop runs under `try: ... except
KeyboardInterrupt: pass`; on normal completion or on an interrupt the
collected points are appended and then `restore_data()` and
`setp(solution)` run; any other exception propagates immediately and the
trailing restoration statements never execute. -/
def Result.resample (env : ResampleEnv) (samples : ℕ) (restart : Bool)
    (st : RState) : ResampleResult :=
  match resampleLoop env restart samples 0 st [] with
  | (st', _, LoopExit.errored) => ⟨true, st', []⟩
  | (st', acc, _) => ⟨false, ⟨env.origData, setp st'.params env.solution⟩, acc⟩

/-- An environment whose very first solver call raises a non-interrupt
exception, with resynthesized data distinct from the original. -/
def exEnvErr : ResampleEnv :=
  ⟨[5], 0, fun _ => 1, fun _ => [7], fun _ => IterOut.err, fun _ => true, fun _ => EF.fin 0⟩

/-- Like `exEnvErr` but the first iteration succeeds and the second is
interrupted by the user. -/
def exEnvIntr : ResampleEnv :=
  ⟨[5], 0, fun _ => 1, fun _ => [7],
    fun i => if i = 1 then IterOut.interrupt else IterOut.ok [6],
    fun _ => true, fun _ => EF.fin 0⟩

theorem nllfBody_not_nan (P : BaseFitProblem) (st : List ℚ) :
    (P.nllfBody st).1.isnan = false := by
  unfold BaseFitProblem.nllfBody
  cases hp : P.parameterNllf st with
  | error e => simp [EF.isnan]
  | ok pp =>
    cases hc : P.constraintsNllf st with
    | error e => simp [EF.isnan]
    | ok pc =>
      simp only
      split
      · cases hm : P.modelNllf st with
        | error e => simp [EF.isnan]
        | ok pm =>
          simp only
          split
          · simp [EF.isnan]
          · rename_i h
            simpa using h
      · simp only
        split
        · simp [EF.isnan]
        · rename_i h
          simpa using h

/-- Claim C1: for every parameter vector `v` with `valid(v)` true,
`nllf(v)` equals `parameter_nllf + constraints_nllf` plus either the
model nllf (when `parameter_nllf + constraints_nllf <= soft_limit`) or
`penalty_nllf` (when the sum exceeds the soft limit, in which case the
model nllf is not evaluated at all). -/
theorem nllf_soft_limit_branch (P : BaseFitProblem) (st v : List ℚ) (pp pc : EF)
    (hv : P.valid v = true)
    (hpp : P.parameterNllf (setp st v) = .ok pp)
    (hpc : P.constraintsNllf (setp st v) = .ok pc) :
    (EF.le (EF.add pp pc) P.soft_limit = true →
      ∀ pm, P.modelNllf (setp st v) = .ok pm →
        (EF.add (EF.add pp pc) pm).isnan = false →
        (P.nllf st (some v)).1 = EF.add (EF.add pp pc) pm)
    ∧ (EF.le (EF.add pp pc) P.soft_limit = false →
        ((EF.add (EF.add pp pc) P.penalty_nllf).isnan = false →
          (P.nllf st (some v)).1 = EF.add (EF.add pp pc) P.penalty_nllf)
        ∧ Ev.modelNllfCall ∉ (P.nllf st (some v)).2.2) := by
  constructor
  · intro hle pm hpm hnn
    simp [BaseFitProblem.nllf, hv, BaseFitProblem.nllfBody, hpp, hpc, hle, hpm, hnn]
  · intro hle
    constructor
    · intro hnn
      simp [BaseFitProblem.nllf, hv, BaseFitProblem.nllfBody, hpp, hpc, hle, hnn]
    · simp [BaseFitProblem.nllf, hv, BaseFitProblem.nllfBody, hpp, hpc, hle]

/-- Witness for C1: on `exP` at `v = [1/2]` (soft limit `inf`, so the
model branch is taken) the cost is `1 + 2 + 3 = 6`. -/
theorem nllf_soft_limit_branch_witness :
    (exP.nllf [0] (some [1/2])).1 = EF.add (EF.add (EF.fin 1) (EF.fin 2)) (EF.fin 3) := by
  have h := nllf_soft_limit_branch exP [0] [1/2] (EF.fin 1) (EF.fin 2)
    (by norm_num [BaseFitProblem.valid, exP, List.range_succ]) rfl rfl
  exact h.1 rfl (EF.fin 3) rfl rfl

/-- Claim C2: for every parameter vector `v` with `valid(v)` false,
`nllf(v)` returns `+inf` immediately: the parameter state is unchanged
and no `setp`, `update` or model-nllf call is issued. -/
theorem nllf_invalid (P : BaseFitProblem) (st v : List ℚ) (hv : P.valid v = false) :
    P.nllf st (some v) = (EF.pinf, st, []) := by
  simp [BaseFitProblem.nllf, hv]

/-- Witness for C2: `exP` at the out-of-bounds vector `[2]`. -/
theorem nllf_invalid_witness : exP.nllf [0] (some [2]) = (EF.pinf, [0], []) :=
  nllf_invalid exP [0] [2] (by norm_num [BaseFitProblem.valid, exP, List.range_succ])

/-- Claim C3: `nllf` is a total function that never returns `NaN`;
whenever the parameter nllf, the constraints nllf or the model nllf
raises, or the computed cost is `NaN` (in either the model or the penalty
branch), the returned value is `+inf`. -/
theorem nllf_never_nan_or_raises (P : BaseFitProblem) :
    (∀ st pvec, (P.nllf st pvec).1.isnan = false)
    ∧ (∀ st, P.parameterNllf st = .error () → (P.nllf st none).1 = EF.pinf)
    ∧ (∀ st pp, P.parameterNllf st = .ok pp → P.constraintsNllf st = .error () →
        (P.nllf st none).1 = EF.pinf)
    ∧ (∀ st pp pc, P.parameterNllf st = .ok pp → P.constraintsNllf st = .ok pc →
        EF.le (EF.add pp pc) P.soft_limit = true → P.modelNllf st = .error () →
        (P.nllf st none).1 = EF.pinf)
    ∧ (∀ st pp pc pm, P.parameterNllf st = .ok pp → P.constraintsNllf st = .ok pc →
        EF.le (EF.add pp pc) P.soft_limit = true → P.modelNllf st = .ok pm →
        (EF.add (EF.add pp pc) pm).isnan = true → (P.nllf st none).1 = EF.pinf)
    ∧ (∀ st pp pc, P.parameterNllf st = .ok pp → P.constraintsNllf st = .ok pc →
        EF.le (EF.add pp pc) P.soft_limit = false →
        (EF.add (EF.add pp pc) P.penalty_nllf).isnan = true →
        (P.nllf st none).1 = EF.pinf) := by
  refine ⟨?_, ?_, ?_, ?_, ?_, ?_⟩
  · intro st pvec
    cases pvec with
    | none => simpa [BaseFitProblem.nllf] using nllfBody_not_nan P st
    | some v =>
      by_cases hv : P.valid v
      · simpa [BaseFitProblem.nllf, hv] using nllfBody_not_nan P (setp st v)
      · simp [BaseFitProblem.nllf, hv, EF.isnan]
  · intro st hp
    simp [BaseFitProblem.nllf, BaseFitProblem.nllfBody, hp]
  · intro st pp hp hc
    simp [BaseFitProblem.nllf, BaseFitProblem.nllfBody, hp, hc]
  · intro st pp pc hp hc hle hm
    simp [BaseFitProblem.nllf, BaseFitProblem.nllfBody, hp, hc, hle, hm]
  · intro st pp pc pm hp hc hle hm hnan
    simp [BaseFitProblem.nllf, BaseFitProblem.nllfBody, hp, hc, hle, hm, hnan]
  · intro st pp pc hp hc hle hnan
    simp [BaseFitProblem.nllf, BaseFitProblem.nllfBody, hp, hc, hle, hnan]

/-- Witness for C3: `exPbad`, whose parameter nllf raises, returns `+inf`
(no exception, no `NaN`) and `exP`'s ordinary evaluation is not `NaN`. -/
theorem nllf_never_nan_or_raises_witness :
    (exPbad.nllf [0] none).1 = EF.pinf ∧ (exP.nllf [0] (some [1/2])).1.isnan = false :=
  ⟨(nllf_never_nan_or_raises exPbad).2.1 [0] rfl,
   (nllf_never_nan_or_raises exP).1 [0] (some [1/2])⟩

/-- Counterexample for C4: constructing with three weights over two
models is accepted, not rejected — `MultiFitProblem.__init__` contains no
check of `len(weights)` against `len(models)`. -/
theorem multi_init_weights_mismatch_counterexample :
    exceptOk (MultiFitProblem.init [exM1, exM2] (some [1, 1, 1]) []) = true
    ∧ ([(1 : ℚ), 1, 1]).length ≠ [exM1, exM2].length :=
  ⟨rfl, by decide⟩

theorem multi_init_isOk (models : List MFitness) (w : Option (List ℚ)) (fv : List MParam) :
    exceptOk (MultiFitProblem.init models w fv)
      = ((models.all fun m => decide (0 < m.numpoints)) && !models.isEmpty
          && decide ((varying (unique ((models.map MFitness.params).flatten ++ fv))).length
              < (models.map MFitness.numpoints).sum)) := by
  unfold MultiFitProblem.init
  split
  · rename_i hall
    simp [hall, exceptOk]
  · rename_i hall
    rw [Bool.not_eq_false] at hall
    split
    · simp [exceptOk, List.isEmpty]
    · rename_i m ms
      split
      · rename_i hle
        simp only [exceptOk, hall, Bool.true_and]
        rw [List.isEmpty]
        simp only [Bool.not_false, Bool.true_and]
        symm
        rw [decide_eq_false_iff_not]
        exact Nat.not_lt.mpr hle
      · rename_i hle
        simp only [exceptOk, hall, Bool.true_and]
        rw [List.isEmpty]
        simp only [Bool.not_false, Bool.true_and]
        symm
        rw [decide_eq_true_iff]
        exact Nat.lt_of_not_le hle

/-- Amended claim C4: construction never examines the weights list:
whether `__init__` succeeds is independent of the supplied weights (in
particular a length mismatch with the models is silently accepted). -/
theorem multi_init_ignores_weights (models : List MFitness) (ws ws' : List ℚ)
    (fv : List MParam) :
    exceptOk (MultiFitProblem.init models (some ws) fv)
      = exceptOk (MultiFitProblem.init models (some ws') fv) := by
  rw [multi_init_isOk, multi_init_isOk]

/-- Claim C6: `MultiFitProblem.residuals` is the concatenation, in
sub-model order, of `weights[i] * models[i].residuals()`; with all
weights `1` it is the unscaled concatenation, and with weights `[2, 1]`
over two sub-models the first segment is exactly double the unweighted
first sub-model residuals. -/
theorem multi_residuals_weighted_concat :
    (∀ ws ms fv d, (MultiFitProblem.mk ms ws fv d).residuals
        = (List.zipWith (fun (w : ℚ) (f : MFitness) => f.residuals.map fun r => w * r)
            ws ms).flatten)
    ∧ (∀ ms fv d, (MultiFitProblem.mk ms (ms.map fun _ => (1 : ℚ)) fv d).residuals
        = (ms.map MFitness.residuals).flatten)
    ∧ (∀ f1 f2 fv fv' d d',
        (MultiFitProblem.mk [f1, f2] [2, 1] fv d).residuals
          = (f1.residuals.map fun r => 2 * r) ++ f2.residuals
        ∧ (MultiFitProblem.mk [f1, f2] [1, 1] fv' d').residuals
          = f1.residuals ++ f2.residuals) := by
  have hzip : ∀ ws ms fv d, (MultiFitProblem.mk ms ws fv d).residuals
      = (List.zipWith (fun (w : ℚ) (f : MFitness) => f.residuals.map fun r => w * r)
          ws ms).flatten := by
    intro ws ms fv d
    simp [MultiFitProblem.residuals, List.zip, List.map_zipWith]
  refine ⟨hzip, ?_, ?_⟩
  · intro ms fv d
    rw [hzip]
    congr 1
    induction ms with
    | nil => rfl
    | cons m ms ih =>
      simp only [List.map_cons, List.zipWith_cons_cons]
      rw [ih]
      simp
  · intro f1 f2 fv fv' d d'
    constructor
    · rw [hzip]
      simp
    · rw [hzip]
      simp

/-- Claim C7: the composite `model_nllf` is the plain unweighted sum of
the sub-models' nllf values: it is invariant under any change of the
weights vector (and of the free-variable table and dof), and equals the
left fold of float addition over the sub-model nllf values starting from
`0`. -/
theorem multi_model_nllf_unweighted (ms : List MFitness) (ws ws' : List ℚ)
    (fv fv' : List MParam) (d d' : ℤ) :
    (MultiFitProblem.mk ms ws fv d).model_nllf
        = (ms.map MFitness.mnllf).foldl EF.add (EF.fin 0)
    ∧ (MultiFitProblem.mk ms ws fv d).model_nllf
        = (MultiFitProblem.mk ms ws' fv' d').model_nllf :=
  ⟨rfl, rfl⟩

theorem uniqueAux_congr (l : List MParam) : ∀ s s' : List ℕ,
    (∀ q ∈ l, (q.id ∈ s ↔ q.id ∈ s')) → uniqueAux s l = uniqueAux s' l := by
  induction l with
  | nil => intro s s' _; rfl
  | cons p ps ih =>
    intro s s' hss
    have hp := hss p (List.mem_cons_self p ps)
    by_cases hmem : p.id ∈ s
    · have hmem' : p.id ∈ s' := hp.mp hmem
      simp only [uniqueAux, if_pos hmem, if_pos hmem']
      exact ih s s' fun q hq => hss q (List.mem_cons_of_mem p hq)
    · have hmem' : p.id ∉ s' := fun h => hmem (hp.mpr h)
      simp only [uniqueAux, if_neg hmem, if_neg hmem']
      congr 1
      refine ih _ _ fun q hq => ?_
      constructor
      · intro h
        rcases List.mem_cons.mp h with h | h
        · exact List.mem_cons.mpr (Or.inl h)
        · exact List.mem_cons.mpr (Or.inr ((hss q (List.mem_cons_of_mem p hq)).mp h))
      · intro h
        rcases List.mem_cons.mp h with h | h
        · exact List.mem_cons.mpr (Or.inl h)
        · exact List.mem_cons.mpr (Or.inr ((hss q (List.mem_cons_of_mem p hq)).mpr h))

theorem uniqueAux_append (l1 l2 : List MParam) : ∀ s : List ℕ,
    (∀ q ∈ l2, q.id ∉ s ∧ q.id ∉ l1.map MParam.id) →
    uniqueAux s (l1 ++ l2) = uniqueAux s l1 ++ uniqueAux s l2 := by
  induction l1 with
  | nil => intro s _; rfl
  | cons p ps ih =>
    intro s hdis
    by_cases hmem : p.id ∈ s
    · simp only [List.cons_append, uniqueAux, if_pos hmem]
      exact ih s fun q hq => ⟨(hdis q hq).1, fun h =>
        (hdis q hq).2 (by simpa using Or.inr h)⟩
    · simp only [List.cons_append, uniqueAux, if_neg hmem, List.append_eq]
      have step : uniqueAux (p.id :: s) (ps ++ l2)
          = uniqueAux (p.id :: s) ps ++ uniqueAux (p.id :: s) l2 := by
        refine ih (p.id :: s) fun q hq => ⟨?_, ?_⟩
        · intro h
          rcases List.mem_cons.mp h with h | h
          · exact (hdis q hq).2 (by simp [h])
          · exact (hdis q hq).1 h
        · intro h
          exact (hdis q hq).2 (by simpa using Or.inr h)
      rw [step]
      have hcong : uniqueAux (p.id :: s) l2 = uniqueAux s l2 := by
        refine uniqueAux_congr l2 _ _ fun q hq => ?_
        constructor
        · intro h
          rcases List.mem_cons.mp h with h | h
          · exact absurd (by simp [h] : q.id ∈ (p :: ps).map MParam.id) (hdis q hq).2
          · exact h
        · exact fun h => List.mem_cons.mpr (Or.inr h)
      rw [hcong]

theorem unique_append_of_disjoint (l1 l2 : List MParam)
    (hdis : ∀ q ∈ l2, q.id ∉ l1.map MParam.id) :
    unique (l1 ++ l2) = unique l1 ++ unique l2 :=
  uniqueAux_append l1 l2 [] fun q hq => ⟨by simp, hdis q hq⟩

/-- Claim C8: a composite of two sub-models with `p1`, `p2` points and
`k1`, `k2` varying parameters (no parameter shared between the
sub-models, no free variables) has `dof = (p1 + p2) - (k1 + k2)`. -/
theorem multi_dof_two_models (f1 f2 : MFitness) (w : Option (List ℚ))
    (mfp : MultiFitProblem)
    (hdisj : ∀ q ∈ f2.params, q.id ∉ f1.params.map MParam.id)
    (h : MultiFitProblem.init [f1, f2] w [] = .ok mfp) :
    mfp.dof = ((f1.numpoints + f2.numpoints : ℕ) : ℤ)
      - (((varying (unique f1.params)).length + (varying (unique f2.params)).length : ℕ) : ℤ) := by
  unfold MultiFitProblem.init at h
  split at h
  · exact absurd h (by simp)
  · simp only at h
    split at h
    · exact absurd h (by simp)
    · rename_i heq
      have hpars : (([f1, f2].map MFitness.params).flatten ++ ([] : List MParam))
          = f1.params ++ f2.params := by simp
      rw [hpars] at h
      rw [unique_append_of_disjoint f1.params f2.params hdisj] at h
      have hvar : (varying (unique f1.params ++ unique f2.params)).length
          = (varying (unique f1.params)).length + (varying (unique f2.params)).length := by
        simp [varying, List.filter_append]
      rw [hvar] at h
      have hpts : ([f1, f2].map MFitness.numpoints).sum = f1.numpoints + f2.numpoints := by
        simp
      rw [hpts] at h
      injection h with h'
      rw [← h']

/-- Witness for C8: two disjoint two-point, one-varying-parameter
sub-models give `dof = (2 + 2) - (1 + 1) = 2`. -/
theorem multi_dof_two_models_witness :
    (MultiFitProblem.mk [exM1, exM2] [1, 1] [] 2).dof
      = ((exM1.numpoints + exM2.numpoints : ℕ) : ℤ)
        - (((varying (unique exM1.params)).length
            + (varying (unique exM2.params)).length : ℕ) : ℤ) :=
  multi_dof_two_models exM1 exM2 none _ (by decide) rfl

theorem zip_take_self {α β : Type} (l1 : List α) (l2 : List β) :
    l1.zip l2 = l1.zip (l2.take l1.length) := by
  induction l1 generalizing l2 with
  | nil => rfl
  | cons a l1 ih =>
    cases l2 with
    | nil => rfl
    | cons b l2 => simpa using ih l2

theorem setp_length (st v : List ℚ) : (setp st v).length = st.length := by
  induction st generalizing v with
  | nil => cases v <;> rfl
  | cons s ss ih =>
    cases v with
    | nil => rfl
    | cons x xs => simp [setp, ih]

theorem setp_short (st v : List ℚ) (h : v.length ≤ st.length) :
    setp st v = v ++ st.drop v.length := by
  induction v generalizing st with
  | nil => cases st <;> rfl
  | cons x xs ih =>
    cases st with
    | nil => simp at h
    | cons s ss =>
      simp only [setp, List.cons_append, List.length_cons, List.drop_succ_cons]
      rw [ih ss (by simpa using h)]

theorem setp_overflow (st v : List ℚ) (h : st.length ≤ v.length) :
    setp st v = v.take st.length := by
  induction st generalizing v with
  | nil => cases v <;> rfl
  | cons s ss ih =>
    cases v with
    | nil => simp at h
    | cons x xs =>
      simp only [setp, List.length_cons, List.take_succ_cons]
      rw [ih xs (by simpa using h)]

theorem setp_full (st v : List ℚ) (h : st.length = v.length) : setp st v = v := by
  rw [setp_overflow st v h.le, h, List.take_length]

/-- Claim C9: `mcmc` raises whenever `burnin >= samples`, independently
of the chain walker (no chain is run); an unsupplied `burnin` defaults to
`samples / 10`, which passes the check for every positive `samples`. -/
theorem mcmc_burnin_check :
    (∀ samples b walkerRun, samples ≤ b →
      Result.mcmc samples (some b) walkerRun = .error "burnin must be smaller than samples")
    ∧ (∀ samples b w w' s, Result.mcmc samples (some b) w = .error s →
        Result.mcmc samples (some b) w' = .error s)
    ∧ (∀ samples walkerRun, 0 < samples →
        Result.mcmc samples none walkerRun = .ok ((walkerRun samples).drop (samples / 10))) := by
  refine ⟨?_, ?_, ?_⟩
  · intro samples b walkerRun hb
    simp [Result.mcmc, hb]
  · intro samples b w w' s h
    by_cases hb : b ≥ samples
    · simp_all [Result.mcmc]
    · simp_all [Result.mcmc]
  · intro samples walkerRun hs
    have h : ¬ samples / 10 ≥ samples :=
      Nat.not_le.mpr (Nat.div_lt_self hs (by norm_num))
    simp [Result.mcmc, h]

/-- Witness for C9: `samples = 100, burnin = 100` raises; `samples = 100`
with the default burnin `10` runs the chain and drops 10 rows. -/
theorem mcmc_burnin_check_witness :
    Result.mcmc 100 (some 100) (fun _ => [])
      = .error "burnin must be smaller than samples"
    ∧ Result.mcmc 100 none (fun _ => []) = .ok [] :=
  ⟨mcmc_burnin_check.1 100 100 _ (le_refl 100), by
    have h := mcmc_burnin_check.2.2 100 (fun _ => []) (by norm_num)
    simpa using h⟩

/-- Claim C10: `valid` and `setp` silently tolerate a vector whose length
differs from the number of varying parameters: `zip` pairs componentwise
up to the shorter list, so a short vector is validated on the supplied
prefix alone, `setp` overwrites only the matching prefix of parameter
values leaving the rest unchanged, and both ignore extra trailing
components; no length mismatch is ever reported. -/
theorem valid_setp_length_mismatch :
    (∀ (P : BaseFitProblem) (v : List ℚ), v.length ≤ P.nvary →
      (P.valid v = true ↔ ∀ (i : ℕ) (h : i < v.length), P.inBounds i v[i] = true))
    ∧ (∀ (st v : List ℚ), v.length ≤ st.length → setp st v = v ++ st.drop v.length)
    ∧ (∀ (P : BaseFitProblem) (v : List ℚ), P.nvary ≤ v.length →
        P.valid v = P.valid (v.take P.nvary))
    ∧ (∀ (st v : List ℚ), st.length ≤ v.length → setp st v = v.take st.length) := by
  refine ⟨?_, setp_short, ?_, setp_overflow⟩
  · intro P v hv
    rw [BaseFitProblem.valid, List.all_eq_true]
    have hlen : ((List.range P.nvary).zip v).length = v.length := by
      simp [List.length_zip, Nat.min_eq_right hv]
    constructor
    · intro hall i hi
      have hz : (i, v[i]) ∈ (List.range P.nvary).zip v := by
        have hi' : i < ((List.range P.nvary).zip v).length := by omega
        have : ((List.range P.nvary).zip v)[i] = (i, v[i]) := by
          simp
        exact this ▸ List.getElem_mem hi'
      simpa using hall _ hz
    · intro hpre x hx
      obtain ⟨i, hi, hx'⟩ := List.mem_iff_getElem.mp hx
      have : ((List.range P.nvary).zip v)[i] = (i, v[i]) := by
        simp
      rw [this] at hx'
      subst hx'
      exact hpre i (by omega)
  · intro P v hv
    rw [BaseFitProblem.valid, BaseFitProblem.valid]
    congr 1
    have h1 : (List.range P.nvary).zip v
        = (List.range P.nvary).zip (v.take (List.range P.nvary).length) :=
      zip_take_self _ v
    rw [List.length_range] at h1
    rw [h1]

/-- Witness for C10: on `exP` (one varying parameter, bounds `[0, 1]`),
the empty vector is trivially valid, extra components are ignored by both
`valid` and `setp`, and a short vector overwrites only a prefix. -/
theorem valid_setp_length_mismatch_witness :
    exP.valid [] = true
    ∧ setp [3, 4] [5] = [5, 4]
    ∧ exP.valid [0, 99] = exP.valid [0]
    ∧ setp [3] [5, 6] = [5] := by
  refine ⟨?_, ?_, ?_, ?_⟩
  · exact (valid_setp_length_mismatch.1 exP [] (by norm_num)).mpr
      (fun i h => absurd h (by norm_num))
  · have h := valid_setp_length_mismatch.2.1 [3, 4] [5] (by norm_num)
    simpa using h
  · have h := valid_setp_length_mismatch.2.2.1 exP [0, 99] (by norm_num [exP])
    simpa [exP] using h
  · have h := valid_setp_length_mismatch.2.2.2 [3] [5, 6] (by norm_num)
    simpa using h

theorem resampleLoop_params_length (env : ResampleEnv) (restart : Bool) :
    ∀ (n i : ℕ) (st : RState) (acc : List (EF × List ℚ)),
      (resampleLoop env restart n i st acc).1.params.length = st.params.length := by
  have hst1 : ∀ (i : ℕ) (st : RState),
      (if restart then setp st.params (env.randomPoint i)
        else setp st.params env.solution).length = st.params.length := by
    intro i st
    split <;> rw [setp_length]
  intro n
  induction n with
  | zero => intro i st acc; rfl
  | succ n ih =>
    intro i st acc
    rw [resampleLoop]
    cases env.solveStep i with
    | interrupt => simpa using hst1 i st
    | err => simpa using hst1 i st
    | ok x =>
      simp only
      rw [ih]
      split
      · simp only [setp_length]
        exact hst1 i st
      · exact hst1 i st

/-- Counterexample for C5: when a sample evaluation fails with an
ordinary exception (not `KeyboardInterrupt`), `resample` propagates it
and the restoration does not run: the data keeps its resynthesized value
instead of the original. -/
theorem resample_err_skips_restore_counterexample :
    (Result.resample exEnvErr 3 false ⟨0, [5]⟩).raised = true
    ∧ (Result.resample exEnvErr 3 false ⟨0, [5]⟩).finalSt.data ≠ exEnvErr.origData := by
  constructor
  · rfl
  · show (1 : ℚ) ≠ 0
    norm_num

/-- Amended claim C5: restoration of the original data and of the stored
solution runs on normal completion and on user interrupt (the only
recovered abort), but not when another exception escapes the loop: if no
exception propagates, the final state is exactly the original data with
the parameters set back to the solution. -/
theorem resample_restores_unless_raised (env : ResampleEnv) (samples : ℕ)
    (restart : Bool) (st : RState)
    (hlen : env.solution.length = st.params.length)
    (hraised : (Result.resample env samples restart st).raised = false) :
    (Result.resample env samples restart st).finalSt = ⟨env.origData, env.solution⟩ := by
  have hl := resampleLoop_params_length env restart samples 0 st []
  rcases hloop : resampleLoop env restart samples 0 st [] with ⟨st', acc, ex⟩
  rw [hloop] at hl
  unfold Result.resample at hraised ⊢
  rw [hloop] at hraised ⊢
  cases ex with
  | errored => simp at hraised
  | done =>
    simp only
    rw [setp_full _ _ (by rw [hl, ← hlen])]
  | interrupted =>
    simp only
    rw [setp_full _ _ (by rw [hl, ← hlen])]

/-- Witness for C5: interrupted at the second of three iterations, the
final state is the original data with the solution restored. -/
theorem resample_restores_unless_raised_witness :
    (Result.resample exEnvIntr 3 false ⟨0, [5]⟩).finalSt
      = ⟨exEnvIntr.origData, exEnvIntr.solution⟩ :=
  resample_restores_unless_raised exEnvIntr 3 false ⟨0, [5]⟩ rfl rfl

end Bumps
